import Mathlib

/-!
Verification of the AutoGKB Annotation Matching & Scoring Engine.

The repository ships the documentation of the engine (module READMEs, the
benchmarking PRD, `config/benchmark_config.json`) but not the Python
implementation files themselves, so the engine components
(VariantStringParser, ContingencyCalculator, FieldMatcher, SampleScorer,
CorpusAggregator) are modelled here from the specification; the shipped
configuration is translated directly from `config/benchmark_config.json`.
-/

namespace AutoGKB

/-! ## VariantStringParser -/

/-- Modelled from the spec: VariantStringParser splits raw values on comma,
slash, plus, and whitespace boundaries (spec section 4.1,
`SimplifiedVariantMatcher.split_variants`). -/
def isDelim (c : Char) : Bool :=
  c == ',' || c == '/' || c == '+' || c.isWhitespace

/-- Generic splitter core: accumulates the current token (reversed) and
flushes it at each delimiter, dropping empty tokens. -/
def splitOnCore (p : Char → Bool) : List Char → List Char → List (List Char)
  | [], cur => if cur.isEmpty then [] else [cur.reverse]
  | c :: rest, cur =>
    if p c then
      if cur.isEmpty then splitOnCore p rest []
      else cur.reverse :: splitOnCore p rest []
    else splitOnCore p rest (c :: cur)

/-- Split a character list on a delimiter predicate, dropping empty pieces. -/
def splitOnPred (p : Char → Bool) (cs : List Char) : List (List Char) :=
  splitOnCore p cs []

/-- Modelled from the spec: tokenization step of VariantStringParser
(missing `variant_matching.py`, `split_variants`). -/
def splitTokens (cs : List Char) : List (List Char) :=
  splitOnPred isDelim cs

/-- Nonempty all-digit character list. -/
def isDigits (cs : List Char) : Bool :=
  !cs.isEmpty && cs.all Char.isDigit

/-- Nonempty all-letter character list (plain genotype/zygosity token). -/
def isAlphaOnly (cs : List Char) : Bool :=
  !cs.isEmpty && cs.all Char.isAlpha

/-- Gene symbol shape: a letter followed by letters or digits. -/
def isGeneSym : List Char → Bool
  | [] => false
  | c :: rest => c.isAlpha && rest.all (fun d => d.isAlpha || d.isDigit)

/-- rsID shape: `rs` (case-insensitive) followed by one or more digits. -/
def isRsid : List Char → Bool
  | a :: b :: rest =>
    (a == 'r' || a == 'R') && (b == 's' || b == 'S') && isDigits rest
  | _ => false

/-- Split a character list at the first occurrence of `sep`, removing it;
`none` when `sep` does not occur. -/
def splitAtChar (sep : Char) : List Char → Option (List Char × List Char)
  | [] => none
  | c :: rest =>
    if c == sep then some ([], rest)
    else
      match splitAtChar sep rest with
      | some (pre, post) => some (c :: pre, post)
      | none => none

/-- Modelled from the spec: star-allele token construction with gene
back-fill (missing `preprocess_variants`: a bare `*N` is rewritten as
`GENE*N` when a gene is available, kept unprefixed otherwise; a malformed
gene prefix drops the token). `pre` is already uppercased. -/
def starAlleleTokens (pre n : List Char) (gene : Option (List Char)) :
    List (List Char) :=
  if pre.isEmpty then
    match gene with
    | some g => [g.map Char.toUpper ++ '*' :: n]
    | none => ['*' :: n]
  else if isGeneSym pre then [pre ++ '*' :: n]
  else []

/-- Modelled from the spec: token classification of VariantStringParser
(missing `preprocess_variants`): rsIDs, star alleles (`GENE*N` or bare
`*N`), compound notations (`GENE*N-1234G>A`, split into the star-allele
and positional-change components), plain genotype strings; anything else
is dropped. Tokens are uppercased to a canonical case. -/
def classifyToken (tok : List Char) (gene : Option (List Char)) :
    List (List Char) :=
  let t := tok.map Char.toUpper
  if isRsid t then [t]
  else
    match splitAtChar '*' t with
    | some (pre, post) =>
      match splitAtChar '-' post with
      | some (n, change) =>
        if isDigits n && !change.isEmpty then
          starAlleleTokens pre n gene ++ [change]
        else []
      | none =>
        if isDigits post then starAlleleTokens pre post gene else []
    | none => if isAlphaOnly t then [t] else []

/-- Modelled from the spec: the token list produced by
`normalize(raw, gene)` before deduplication. -/
def normalizeTokens (raw : String) (gene : Option String) : List String :=
  ((splitTokens raw.toList).flatMap
    (fun t => classifyToken t (gene.map (fun g => g.toList)))).map
    (fun cs => String.mk cs)

/-- Modelled from the spec: `normalize(raw: string, gene: string|null) ->
set<string>`, the contract of VariantStringParser (spec section 4.1). -/
def normalize (raw : String) (gene : Option String) : Finset String :=
  (normalizeTokens raw gene).toFinset

/-! ## Empty values and canonical string form -/

/-- Trim leading and trailing whitespace from a character list. -/
def trimChars (cs : List Char) : List Char :=
  ((cs.dropWhile Char.isWhitespace).reverse.dropWhile Char.isWhitespace).reverse

/-- Modelled from the spec: case-insensitive, whitespace-trimmed canonical
form used by the exact strategy (spec section 4.3). -/
def canon (s : String) : String :=
  String.mk ((trimChars s.toList).map Char.toUpper)

/-- A string that is empty after trimming whitespace. -/
def isBlankStr (s : String) : Bool :=
  (trimChars s.toList).isEmpty

/-- Modelled from the spec: a field value is missing when it is null or
blank (missing-value policy, spec section 4.3). -/
def isEmptyV : Option String → Bool
  | none => true
  | some s => isBlankStr s

/-! ## ContingencyCalculator -/

/-- Contingency counts between a ground-truth and an extracted token set. -/
structure Contingency where
  tp : ℕ
  fp : ℕ
  fn : ℕ
  tn : ℕ
deriving DecidableEq

/-- Modelled from the spec: `calc_contingencies(ground_truth, extracted)`
(missing `tests/variant_list_tests.py`, declared in its README): tp is the
intersection size, fp the extracted-only size, fn the ground-truth-only
size, and tn is 0 by convention (spec section 4.2). -/
def calc_contingencies (g e : Finset String) : Contingency :=
  ⟨(g ∩ e).card, (e \ g).card, (g \ e).card, 0⟩

/-- Derived precision/recall/F1 metrics. -/
structure Metrics where
  precision : ℚ
  recallV : ℚ
  f1 : ℚ
deriving DecidableEq

/-- Modelled from the spec: `calc_metrics(contingencies)` (missing
`tests/variant_list_tests.py`): each division is guarded, returning 0 when
its denominator is 0 (spec section 4.2). -/
def calc_metrics (c : Contingency) : Metrics :=
  let p : ℚ := if c.tp + c.fp = 0 then 0 else (c.tp : ℚ) / ((c.tp : ℚ) + (c.fp : ℚ))
  let r : ℚ := if c.tp + c.fn = 0 then 0 else (c.tp : ℚ) / ((c.tp : ℚ) + (c.fn : ℚ))
  let f : ℚ := if p + r = 0 then 0 else 2 * p * r / (p + r)
  ⟨p, r, f⟩

/-! ## FieldMatcher -/

/-- Modelled from the spec: the three comparison strategies a FieldSpec can
declare (spec section 3). -/
inductive Strategy
  | exact
  | fuzzySet
  | semanticText
deriving DecidableEq

/-- Modelled from the spec: the three-tier classification of the fuzzy-set
strategy (missing `match_row`: Exact Match / Partial Match / No Match). -/
inductive MatchTier
  | exactMatch
  | someOverlap
  | noMatch
deriving DecidableEq

/-- Modelled from the spec: tier assignment of the fuzzy-set strategy from
the two parsed token sets (spec section 4.3). -/
def matchTier (G P : Finset String) : MatchTier :=
  if G = P then .exactMatch
  else if G ∩ P ≠ ∅ then .someOverlap
  else .noMatch

/-- Modelled from the spec: the score attached to each fuzzy tier. -/
def tierScore : MatchTier → ℚ
  | .exactMatch => 1
  | .someOverlap => 1/2
  | .noMatch => 0

/-- Modelled from the spec: fuzzy-set score of two parsed token sets. -/
def fuzzyScore (G P : Finset String) : ℚ :=
  tierScore (matchTier G P)

/-- Word characters used by the semantic-text tokenizer. -/
def isWordChar (c : Char) : Bool :=
  c.isAlpha || c.isDigit

/-- Modelled from the spec: semantic-text tokenization of a free-text value
on whitespace/punctuation into a word set (spec section 4.3). -/
def wordSet (s : String) : Finset String :=
  ((splitOnPred (fun c => !isWordChar c) s.toList).map
    (fun cs => String.mk (cs.map Char.toUpper))).toFinset

/-- Modelled from the spec: Jaccard similarity of two word sets, 0 on two
empty sets. -/
def jaccard (A B : Finset String) : ℚ :=
  if (A ∪ B).card = 0 then 0
  else ((A ∩ B).card : ℚ) / (((A ∪ B).card : ℚ))

/-- Modelled from the spec: static per-field configuration — name,
comparison strategy, relative weight (spec section 3). -/
structure FieldSpec where
  name : String
  strategy : Strategy
  weight : ℚ
deriving DecidableEq

/-- Modelled from the spec: per-field comparison result (spec section 3). -/
structure FieldScore where
  name : String
  score : ℚ
  weight : ℚ
  included : Bool
deriving DecidableEq

/-- Modelled from the spec: strategy dispatch of FieldMatcher on two
non-empty values; the fuzzy-set strategy parses each value with its own
gene context of its own record (spec section 4.3). -/
def strategyScore (st : Strategy) (g p : String) (gg pg : Option String) : ℚ :=
  match st with
  | .exact => if canon g = canon p then 1 else 0
  | .fuzzySet => fuzzyScore (normalize g gg) (normalize p pg)
  | .semanticText => jaccard (wordSet g) (wordSet p)

/-- Modelled from the spec: `score(ground_truth_value, predicted_value,
spec)` of FieldMatcher, applying the missing-value policy before any
strategy dispatch (spec section 4.3). -/
def fieldScore (spec : FieldSpec) (g p : Option String)
    (gg pg : Option String) : FieldScore :=
  if isEmptyV g && isEmptyV p then ⟨spec.name, 0, spec.weight, false⟩
  else if isEmptyV g || isEmptyV p then ⟨spec.name, 0, spec.weight, true⟩
  else
    ⟨spec.name, strategyScore spec.strategy (g.getD "") (p.getD "") gg pg,
      spec.weight, true⟩

/-! ## Shipped configuration (translated from `config/benchmark_config.json`) -/

/-- Fields assigned the exact strategy in `config/benchmark_config.json`. -/
def exact_match_fields : List String :=
  ["gene", "drugs", "significance", "direction_of_effect",
   "phenotype_category", "specialty_population"]

/-- Fields assigned the fuzzy strategy in `config/benchmark_config.json`. -/
def fuzzy_match_fields : List String :=
  ["variant_haplotypes", "alleles", "population_phenotypes_or_diseases"]

/-- Fields assigned the semantic strategy in `config/benchmark_config.json`. -/
def semantic_match_fields : List String :=
  ["sentence", "notes"]

/-- Field weights from `config/benchmark_config.json`. -/
def field_weights : List (String × ℚ) :=
  [("gene", 1), ("drugs", 1), ("variant_haplotypes", 4/5),
   ("significance", 6/5), ("direction_of_effect", 6/5),
   ("phenotype_category", 1), ("sentence", 4/5), ("alleles", 4/5),
   ("specialty_population", 3/5), ("population_phenotypes_or_diseases", 3/5)]

/-- Strategy lookup for a field name in the shipped configuration. -/
def strategyFor (f : String) : Option Strategy :=
  if f ∈ exact_match_fields then some .exact
  else if f ∈ fuzzy_match_fields then some .fuzzySet
  else if f ∈ semantic_match_fields then some .semanticText
  else none

/-! ## SampleScorer -/

/-- Field results that survive the missing-value policy. -/
def includedFields (fss : List FieldScore) : List FieldScore :=
  fss.filter (fun f => f.included)

/-- Total weight of the included fields. -/
def includedWeight (fss : List FieldScore) : ℚ :=
  ((includedFields fss).map (fun f => f.weight)).sum

/-- Weighted score sum of the included fields. -/
def weightedSum (fss : List FieldScore) : ℚ :=
  ((includedFields fss).map (fun f => f.weight * f.score)).sum

/-- Modelled from the spec: the weighted aggregate of SampleScorer —
`Σ(weight·score)/Σ(weight)` over included fields, `null` when nothing is
included (spec section 4.4). -/
def aggregateScore (fss : List FieldScore) : Option ℚ :=
  if includedWeight fss = 0 then none
  else some (weightedSum fss / includedWeight fss)

/-- Modelled from the spec: `score_sample(ground_truth, prediction, specs)`
of SampleScorer (spec section 4.4); each value is parsed with its own
gene field of its own record as context. -/
def score_sample (specs : List FieldSpec) (g p : String → Option String) :
    Option ℚ × List FieldScore :=
  let fss := specs.map
    (fun sp => fieldScore sp (g sp.name) (p sp.name) (g "gene") (p "gene"))
  (aggregateScore fss, fss)

/-- Modelled from the spec: per-field outcome including the error note
attached when a field comparison raised (spec section 4.4). -/
structure FieldOutcome where
  name : String
  score : ℚ
  weight : ℚ
  included : Bool
  errNote : Option String
deriving DecidableEq

/-- Modelled from the spec: the per-field exception guard of SampleScorer —
a raising comparison (modelled as `Except.error`) yields `included = false`
with an error note; a normal result is passed through (spec section 4.4). -/
def guardField (sp : FieldSpec) (r : Except String FieldScore) : FieldOutcome :=
  match r with
  | .ok f => ⟨f.name, f.score, f.weight, f.included, none⟩
  | .error e => ⟨sp.name, 0, sp.weight, false, some e⟩

/-- Modelled from the spec: SampleScorer keeps scoring the remaining fields
after a field-level exception (spec section 4.4). -/
def score_sample_guarded (results : List (FieldSpec × Except String FieldScore)) :
    List FieldOutcome :=
  results.map (fun pr => guardField pr.1 pr.2)

/-! ## CorpusAggregator -/

/-- Modelled from the spec: the result of one sample — article id, optional
aggregate, per-field detail (spec section 3). -/
structure SampleScore where
  pmcid : String
  aggregate : Option ℚ
  fields : List FieldScore
deriving DecidableEq

/-- Modelled from the spec: the additive contribution of one sample for a field —
(score sum over included occurrences, included count, below-1 mismatch
count) (spec section 4.5). -/
def fieldContrib (f : String) (s : SampleScore) : ℚ × ℕ × ℕ :=
  let inc := s.fields.filter (fun fs => fs.name == f && fs.included)
  ((inc.map (fun fs => fs.score)).sum, inc.length,
    (inc.filter (fun fs => decide (fs.score < 1))).length)

/-- Modelled from the spec: the additive accumulator of CorpusAggregator
over a batch of samples, one entry per configured field. -/
def batchAcc (fields : List String) (samples : List SampleScore) :
    List (ℚ × ℕ × ℕ) :=
  fields.map (fun f => (samples.map (fieldContrib f)).sum)

/-- Modelled from the spec: merging two worker accumulators pointwise. -/
def mergeAcc (a b : List (ℚ × ℕ × ℕ)) : List (ℚ × ℕ × ℕ) :=
  List.zipWith (· + ·) a b

/-- Modelled from the spec: the final reduction merging a list of partial
accumulators (spec section 5). -/
def mergeAll (fields : List String) (accs : List (List (ℚ × ℕ × ℕ))) :
    List (ℚ × ℕ × ℕ) :=
  accs.foldr mergeAcc (batchAcc fields [])

/-- Per-field corpus statistics: mean score over included samples (absent
when the field was never included) and mismatch count. -/
structure FieldStats where
  fieldName : String
  meanScore : Option ℚ
  mismatchCount : ℕ
deriving DecidableEq

/-- Modelled from the spec: CorpusReport rendering of an accumulator — the
per-field mean of `score` over all samples where the field was included
(spec section 4.5). -/
def corpusReport (fields : List String) (acc : List (ℚ × ℕ × ℕ)) :
    List FieldStats :=
  (fields.zip acc).map (fun fa =>
    ⟨fa.1, if fa.2.2.1 = 0 then none else some (fa.2.1 / (fa.2.2.1 : ℚ)),
      fa.2.2.2⟩)

/-- Modelled from the spec: `aggregate(samples)` of CorpusAggregator. -/
def aggregateCorpus (fields : List String) (samples : List SampleScore) :
    List FieldStats :=
  corpusReport fields (batchAcc fields samples)

/-! ## Helper lemmas on characters and tokenization -/

lemma toUpper_digit {c : Char} (h : c.isDigit = true) : c.toUpper = c := by
  simp only [Char.isDigit, Bool.and_eq_true, decide_eq_true_eq] at h
  have h2 := UInt32.le_def.mp h.2
  rw [BitVec.le_def] at h2
  have h57 : Char.toNat c ≤ 57 := by
    have h3 : (57 : UInt32).toBitVec.toNat = 57 := by decide
    rw [h3] at h2
    exact h2
  simp only [Char.toUpper]
  rw [if_neg]
  rintro ⟨h97, -⟩
  omega

lemma ne_of_digit_of_not_digit {c d : Char} (h : c.isDigit = true)
    (hd : d.isDigit = false) : c ≠ d := by
  rintro rfl
  rw [h] at hd
  exact Bool.noConfusion hd

lemma not_delim_of_digit {c : Char} (h : c.isDigit = true) :
    isDelim c = false := by
  simp only [isDelim, Bool.or_eq_false_iff, beq_eq_false_iff_ne]
  refine ⟨⟨⟨?_, ?_⟩, ?_⟩, ?_⟩
  · exact ne_of_digit_of_not_digit h (by decide)
  · exact ne_of_digit_of_not_digit h (by decide)
  · exact ne_of_digit_of_not_digit h (by decide)
  · simp only [Char.isWhitespace, Bool.or_eq_false_iff, decide_eq_false_iff_not]
    exact ⟨⟨⟨ne_of_digit_of_not_digit h (by decide),
      ne_of_digit_of_not_digit h (by decide)⟩,
      ne_of_digit_of_not_digit h (by decide)⟩,
      ne_of_digit_of_not_digit h (by decide)⟩

lemma splitAtChar_eq_none {sep : Char} :
    ∀ {cs : List Char}, (∀ c ∈ cs, c ≠ sep) → splitAtChar sep cs = none := by
  intro cs
  induction cs with
  | nil => intro; rfl
  | cons c rest ih =>
    intro h
    rw [splitAtChar, if_neg (by simp [h c (List.mem_cons_self c rest)]),
      ih (fun d hd => h d (List.mem_cons_of_mem c hd))]

lemma splitOnCore_no_delim (p : Char → Bool) :
    ∀ (cs cur : List Char), (∀ c ∈ cs, p c = false) →
      splitOnCore p cs cur =
        if (cur.reverse ++ cs).isEmpty then [] else [cur.reverse ++ cs] := by
  intro cs
  induction cs with
  | nil => intro cur h; simp [splitOnCore]
  | cons c rest ih =>
    intro cur h
    rw [splitOnCore,
      if_neg (by simp [h c (List.mem_cons_self c rest)]),
      ih (c :: cur) (fun d hd => h d (List.mem_cons_of_mem c hd))]
    simp [List.isEmpty_iff]

lemma splitTokens_single {cs : List Char} (h : ∀ c ∈ cs, isDelim c = false)
    (hne : cs ≠ []) : splitTokens cs = [cs] := by
  rw [splitTokens, splitOnPred, splitOnCore_no_delim isDelim cs [] h]
  simp [List.isEmpty_iff, hne]

lemma map_toUpper_digits {N : List Char} (h : N.all Char.isDigit = true) :
    N.map Char.toUpper = N := by
  rw [List.all_eq_true] at h
  induction N with
  | nil => rfl
  | cons c rest ih =>
    rw [List.map_cons, toUpper_digit (h c (List.mem_cons_self c rest)),
      ih (fun d hd => h d (List.mem_cons_of_mem c hd))]

/-! ## Claim theorems -/

/-- Claim C5: star-allele gene back-fill. For every bare star-allele token
`*N` (digits `N`) with a supplied gene the token is rewritten as `GENE*N`,
and with no gene it is retained unprefixed; in particular
`normalize("*2", gene="CYP2C19")` yields the token `"CYP2C19*2"`, the same
token as `normalize("CYP2C19*2", gene=None)`. -/
theorem C5_star_allele_backfill (N : List Char) (hN : isDigits N = true)
    (g : String) :
    normalize (String.mk ('*' :: N)) (some g) =
      {String.mk (g.toList.map Char.toUpper ++ '*' :: N)} ∧
    normalize (String.mk ('*' :: N)) none = {String.mk ('*' :: N)} ∧
    normalize "*2" (some "CYP2C19") = {"CYP2C19*2"} ∧
    normalize "CYP2C19*2" none = {"CYP2C19*2"} := by
  have hdig : ∀ c ∈ N, c.isDigit = true := by
    rw [isDigits, Bool.and_eq_true, List.all_eq_true] at hN
    exact hN.2
  have hne : N ≠ [] := by
    rw [isDigits, Bool.and_eq_true] at hN
    simpa [List.isEmpty_iff] using hN.1
  have hsplit : splitTokens ('*' :: N) = [('*' :: N)] := by
    refine splitTokens_single ?_ (by simp)
    intro c hc
    rcases List.mem_cons.mp hc with rfl | hc
    · decide
    · exact not_delim_of_digit (hdig c hc)
  have hupper : ('*' :: N).map Char.toUpper = '*' :: N := by
    rw [List.map_cons, map_toUpper_digits (List.all_eq_true.mpr hdig)]
    rfl
  have hrs : isRsid ('*' :: N) = false := by
    rcases N with _ | ⟨n, N1⟩
    · rfl
    · rfl
  have hdash : splitAtChar '-' N = none :=
    splitAtChar_eq_none
      (fun c hc => ne_of_digit_of_not_digit (hdig c hc) (by decide))
  have hdigN : isDigits N = true := hN
  have hstar : splitAtChar '*' ('*' :: N) = some ([], N) := by
    simp [splitAtChar]
  have hcls : ∀ gn, classifyToken ('*' :: N) gn = starAlleleTokens [] N gn := by
    intro gn
    simp [classifyToken, hupper, hrs, hstar, hdash, hdigN]
  constructor
  · rw [normalize, normalizeTokens]
    have ht : String.toList (String.mk ('*' :: N)) = '*' :: N := rfl
    rw [ht, hsplit]
    simp only [List.flatMap_cons, List.flatMap_nil, List.append_nil]
    rw [hcls]
    simp [starAlleleTokens]
  refine ⟨?_, by decide, by decide⟩
  rw [normalize, normalizeTokens]
  have ht : String.toList (String.mk ('*' :: N)) = '*' :: N := rfl
  rw [ht, hsplit]
  simp only [List.flatMap_cons, List.flatMap_nil, List.append_nil]
  rw [hcls]
  simp [starAlleleTokens]

/-- Witness for C5 at the concrete input `*2` with gene `CYP2C19`. -/
theorem C5_star_allele_backfill_witness :
    isDigits ['2'] = true ∧
    normalize (String.mk ['*', '2']) (some "CYP2C19") =
      {String.mk ("CYP2C19".toList.map Char.toUpper ++ ['*', '2'])} :=
  ⟨by decide, (C5_star_allele_backfill ['2'] (by decide) "CYP2C19").1⟩

/-- Claim C6: determinism of variant normalization — `normalize` is a pure
function of the raw string and the gene argument, so two calls on the same
arguments return identical token sets. -/
theorem C6_normalize_deterministic (s : String) (g : Option String) :
    normalize s g = normalize s g ∧
    normalizeTokens s g = normalizeTokens s g :=
  ⟨rfl, rfl⟩

lemma matchTier_comm (G P : Finset String) : matchTier G P = matchTier P G := by
  unfold matchTier
  by_cases h : G = P
  · simp [h]
  · have h' : ¬ P = G := fun e => h e.symm
    rw [if_neg h, if_neg h', Finset.inter_comm]

lemma fuzzyScore_comm (G P : Finset String) : fuzzyScore G P = fuzzyScore P G :=
  congrArg tierScore (matchTier_comm G P)

/-- Claim C1: for non-empty values under the fuzzy-set strategy, FieldMatcher
parses both values into token sets G and P and assigns exactly one of the
scores 1.0 (G equals P), 0.5 (unequal with non-empty intersection), 0.0
(disjoint, unequal); no other score is possible. -/
theorem C1_fuzzy_three_tier (n : String) (w : ℚ) (a b : String)
    (ga gb : Option String)
    (ha : isEmptyV (some a) = false) (hb : isEmptyV (some b) = false) :
    (fieldScore ⟨n, .fuzzySet, w⟩ (some a) (some b) ga gb).included = true ∧
    (fieldScore ⟨n, .fuzzySet, w⟩ (some a) (some b) ga gb).score =
      fuzzyScore (normalize a ga) (normalize b gb) ∧
    (normalize a ga = normalize b gb →
      fuzzyScore (normalize a ga) (normalize b gb) = 1) ∧
    (normalize a ga ≠ normalize b gb → normalize a ga ∩ normalize b gb ≠ ∅ →
      fuzzyScore (normalize a ga) (normalize b gb) = 1/2) ∧
    (normalize a ga ≠ normalize b gb → normalize a ga ∩ normalize b gb = ∅ →
      fuzzyScore (normalize a ga) (normalize b gb) = 0) ∧
    ((fieldScore ⟨n, .fuzzySet, w⟩ (some a) (some b) ga gb).score = 1 ∨
     (fieldScore ⟨n, .fuzzySet, w⟩ (some a) (some b) ga gb).score = 1/2 ∨
     (fieldScore ⟨n, .fuzzySet, w⟩ (some a) (some b) ga gb).score = 0) := by
  have hsc : (fieldScore ⟨n, .fuzzySet, w⟩ (some a) (some b) ga gb).score =
      fuzzyScore (normalize a ga) (normalize b gb) := by
    simp [fieldScore, ha, hb, strategyScore]
  refine ⟨by simp [fieldScore, ha, hb], hsc, ?_, ?_, ?_, ?_⟩
  · intro h; simp [fuzzyScore, matchTier, tierScore, h]
  · intro h1 h2; simp [fuzzyScore, matchTier, tierScore, h1, h2]
  · intro h1 h2; simp [fuzzyScore, matchTier, tierScore, h1, h2]
  · rw [hsc]
    rcases matchTier (normalize a ga) (normalize b gb) with _ | _ | _ <;>
      simp [fuzzyScore, tierScore] <;>
      rcases matchTier (normalize a ga) (normalize b gb) with _ | _ | _ <;>
      simp [tierScore]

/-- Witness for C1 at concrete overlapping allele lists. -/
theorem C1_fuzzy_three_tier_witness :
    isEmptyV (some "*1/*2") = false ∧ isEmptyV (some "*2/*3") = false ∧
    (fieldScore ⟨"alleles", .fuzzySet, 4/5⟩ (some "*1/*2") (some "*2/*3")
      none none).score = fuzzyScore (normalize "*1/*2" none)
        (normalize "*2/*3" none) :=
  ⟨by decide, by decide,
    (C1_fuzzy_three_tier "alleles" (4/5) "*1/*2" "*2/*3" none none
      (by decide) (by decide)).2.1⟩

/-- Claim C8: symmetry of fuzzy-set tiering — swapping the ground-truth and
prediction values (each with its own gene context) changes neither the
assigned tier nor the score, and the whole fuzzy field result is
symmetric. -/
theorem C8_fuzzy_symmetry (n : String) (w : ℚ) (a b ga gb : Option String) :
    fieldScore ⟨n, .fuzzySet, w⟩ a b ga gb =
      fieldScore ⟨n, .fuzzySet, w⟩ b a gb ga ∧
    (∀ G P : Finset String,
      matchTier G P = matchTier P G ∧ fuzzyScore G P = fuzzyScore P G) := by
  refine ⟨?_, fun G P => ⟨matchTier_comm G P, fuzzyScore_comm G P⟩⟩
  by_cases hA : isEmptyV a = true <;> by_cases hB : isEmptyV b = true <;>
    simp [fieldScore, hA, hB, strategyScore, fuzzyScore_comm]

/-- Claim C2: the missing-value policy runs before strategy dispatch —
both-empty yields an excluded field, exactly-one-empty yields an included
field scored 0.0, and only two non-empty values reach the strategy; an
excluded field does not change the aggregate. -/
theorem C2_missing_value_policy (spec : FieldSpec) (g p gg pg : Option String) :
    (isEmptyV g = true → isEmptyV p = true →
      fieldScore spec g p gg pg = ⟨spec.name, 0, spec.weight, false⟩) ∧
    (isEmptyV g = true → isEmptyV p = false →
      fieldScore spec g p gg pg = ⟨spec.name, 0, spec.weight, true⟩) ∧
    (isEmptyV g = false → isEmptyV p = true →
      fieldScore spec g p gg pg = ⟨spec.name, 0, spec.weight, true⟩) ∧
    (isEmptyV g = false → isEmptyV p = false →
      fieldScore spec g p gg pg =
        ⟨spec.name, strategyScore spec.strategy (g.getD "") (p.getD "") gg pg,
          spec.weight, true⟩) ∧
    (∀ (x : FieldScore) (fss : List FieldScore), x.included = false →
      aggregateScore (x :: fss) = aggregateScore fss) := by
  refine ⟨fun h1 h2 => ?_, fun h1 h2 => ?_, fun h1 h2 => ?_, fun h1 h2 => ?_,
    fun x fss hx => ?_⟩ <;>
    first
    | simp [fieldScore, h1, h2]
    | simp [aggregateScore, includedWeight, weightedSum, includedFields,
        List.filter_cons, hx]

/-- Witness for C2 at ground truth `TT` against a null prediction. -/
theorem C2_missing_value_policy_witness :
    isEmptyV (some "TT") = false ∧ isEmptyV (none : Option String) = true ∧
    fieldScore ⟨"alleles", .fuzzySet, 4/5⟩ (some "TT") none none none =
      ⟨"alleles", 0, 4/5, true⟩ :=
  ⟨by decide, by decide,
    (C2_missing_value_policy ⟨"alleles", .fuzzySet, 4/5⟩ (some "TT") none
      none none).2.2.1 (by decide) (by decide)⟩

/-- Claim C3: the contingency calculator returns tp, fp, fn as the
intersection / extracted-only / missing-only sizes with tn fixed at 0; the
derived precision, recall and F1 use guarded divisions that return 0 on a
zero denominator, and the documented concrete example evaluates to
tp=fp=fn=1 with all three metrics 0.5. -/
theorem C3_contingency_metrics (G E : Finset String) (c : Contingency) :
    calc_contingencies G E = ⟨(G ∩ E).card, (E \ G).card, (G \ E).card, 0⟩ ∧
    (c.tp + c.fp ≠ 0 →
      (calc_metrics c).precision = (c.tp : ℚ) / ((c.tp : ℚ) + (c.fp : ℚ))) ∧
    (c.tp + c.fp = 0 → (calc_metrics c).precision = 0) ∧
    (c.tp + c.fn ≠ 0 →
      (calc_metrics c).recallV = (c.tp : ℚ) / ((c.tp : ℚ) + (c.fn : ℚ))) ∧
    (c.tp + c.fn = 0 → (calc_metrics c).recallV = 0) ∧
    ((calc_metrics c).precision + (calc_metrics c).recallV ≠ 0 →
      (calc_metrics c).f1 =
        2 * (calc_metrics c).precision * (calc_metrics c).recallV /
          ((calc_metrics c).precision + (calc_metrics c).recallV)) ∧
    ((calc_metrics c).precision + (calc_metrics c).recallV = 0 →
      (calc_metrics c).f1 = 0) ∧
    calc_contingencies {"rs1799853", "rs4244285"} {"rs1799853", "rs1045642"} =
      ⟨1, 1, 1, 0⟩ ∧
    calc_metrics ⟨1, 1, 1, 0⟩ = ⟨1/2, 1/2, 1/2⟩ := by
  have hp : (calc_metrics c).precision =
      if c.tp + c.fp = 0 then 0 else (c.tp : ℚ) / ((c.tp : ℚ) + (c.fp : ℚ)) := rfl
  have hr : (calc_metrics c).recallV =
      if c.tp + c.fn = 0 then 0 else (c.tp : ℚ) / ((c.tp : ℚ) + (c.fn : ℚ)) := rfl
  have hf : (calc_metrics c).f1 =
      if (calc_metrics c).precision + (calc_metrics c).recallV = 0 then 0
      else 2 * (calc_metrics c).precision * (calc_metrics c).recallV /
        ((calc_metrics c).precision + (calc_metrics c).recallV) := rfl
  refine ⟨rfl, fun h => ?_, fun h => ?_, fun h => ?_, fun h => ?_, fun h => ?_,
    fun h => ?_, by decide, by norm_num [calc_metrics, Metrics.mk.injEq]⟩
  · rw [hp, if_neg h]
  · rw [hp, if_pos h]
  · rw [hr, if_neg h]
  · rw [hr, if_pos h]
  · rw [hf, if_neg h]
  · rw [hf, if_pos h]

/-- Witness for C3: guarded precision at a concrete contingency table. -/
theorem C3_contingency_metrics_witness :
    (calc_metrics ⟨1, 1, 1, 0⟩).precision =
      ((1 : ℕ) : ℚ) / (((1 : ℕ) : ℚ) + ((1 : ℕ) : ℚ)) :=
  (C3_contingency_metrics ∅ ∅ ⟨1, 1, 1, 0⟩).2.1 (by norm_num)

/-- Claim C10: in the shipped configuration the fields gene and drugs use
the exact-match strategy, not fuzzy-set, so two non-empty values differing
by more than letter case or surrounding whitespace score 0.0 with no
partial credit. -/
theorem C10_gene_drugs_config_exact (f v w : String) (wt : ℚ)
    (hf : f = "gene" ∨ f = "drugs")
    (hv : isEmptyV (some v) = false) (hw : isEmptyV (some w) = false)
    (hne : canon v ≠ canon w) :
    strategyFor f = some .exact ∧
    f ∉ fuzzy_match_fields ∧
    (fieldScore ⟨f, .exact, wt⟩ (some v) (some w) none none).score = 0 ∧
    (fieldScore ⟨f, .exact, wt⟩ (some v) (some w) none none).included = true := by
  refine ⟨?_, ?_, ?_, ?_⟩
  · rcases hf with rfl | rfl <;> decide
  · rcases hf with rfl | rfl <;> decide
  · simp [fieldScore, hv, hw, strategyScore, hne]
  · simp [fieldScore, hv, hw]

/-- Witness for C10 at drug values `warfarin` versus `aspirin`. -/
theorem C10_gene_drugs_config_exact_witness :
    ("drugs" = "gene" ∨ "drugs" = "drugs") ∧
    canon "warfarin" ≠ canon "aspirin" ∧
    (fieldScore ⟨"drugs", .exact, 1⟩ (some "warfarin") (some "aspirin")
      none none).score = 0 :=
  ⟨Or.inr rfl, by decide,
    (C10_gene_drugs_config_exact "drugs" "warfarin" "aspirin" 1 (Or.inr rfl)
      (by decide) (by decide) (by decide)).2.2.1⟩

/-! ## Score bounds and the weighted aggregate -/

lemma tierScore_bounds (t : MatchTier) : 0 ≤ tierScore t ∧ tierScore t ≤ 1 := by
  rcases t <;> norm_num [tierScore]

lemma jaccard_bounds (A B : Finset String) :
    0 ≤ jaccard A B ∧ jaccard A B ≤ 1 := by
  unfold jaccard
  by_cases h : (A ∪ B).card = 0
  · simp [h]
  · rw [if_neg h]
    have hpos : (0 : ℚ) < ((A ∪ B).card : ℚ) := by
      exact_mod_cast Nat.pos_of_ne_zero h
    refine ⟨by positivity, ?_⟩
    rw [div_le_one hpos]
    exact_mod_cast Finset.card_le_card Finset.inter_subset_union

lemma strategyScore_bounds (st : Strategy) (a b : String)
    (gg pg : Option String) :
    0 ≤ strategyScore st a b gg pg ∧ strategyScore st a b gg pg ≤ 1 := by
  rcases st <;> simp only [strategyScore]
  · split <;> norm_num
  · exact tierScore_bounds _
  · exact jaccard_bounds _ _

lemma fieldScore_score_bounds (spec : FieldSpec) (g p gg pg : Option String) :
    0 ≤ (fieldScore spec g p gg pg).score ∧
    (fieldScore spec g p gg pg).score ≤ 1 := by
  by_cases h1 : (isEmptyV g && isEmptyV p) = true
  · simp [fieldScore, h1]
  · by_cases h2 : (isEmptyV g || isEmptyV p) = true
    · simp [fieldScore, h1, h2]
    · simp only [fieldScore, h1, h2, Bool.false_eq_true, if_false]
      exact strategyScore_bounds _ _ _ _ _

lemma fieldScore_weight (spec : FieldSpec) (g p gg pg : Option String) :
    (fieldScore spec g p gg pg).weight = spec.weight := by
  by_cases h1 : (isEmptyV g && isEmptyV p) = true
  · simp [fieldScore, h1]
  · by_cases h2 : (isEmptyV g || isEmptyV p) = true <;>
      simp [fieldScore, h1, h2]

lemma score_sample_fields (specs : List FieldSpec) (g p : String → Option String) :
    (score_sample specs g p).2 = specs.map
      (fun sp => fieldScore sp (g sp.name) (p sp.name) (g "gene") (p "gene")) :=
  rfl

lemma score_sample_mem_bounds (specs : List FieldSpec)
    (g p : String → Option String) (hw : ∀ sp ∈ specs, 0 < sp.weight) :
    ∀ f ∈ (score_sample specs g p).2,
      0 ≤ f.score ∧ f.score ≤ 1 ∧ 0 < f.weight := by
  intro f hf
  rw [score_sample_fields, List.mem_map] at hf
  obtain ⟨sp, hsp, rfl⟩ := hf
  refine ⟨(fieldScore_score_bounds _ _ _ _ _).1,
    (fieldScore_score_bounds _ _ _ _ _).2, ?_⟩
  rw [fieldScore_weight]
  exact hw sp hsp

lemma includedWeight_pos (fss : List FieldScore)
    (hb : ∀ f ∈ fss, 0 ≤ f.score ∧ f.score ≤ 1 ∧ 0 < f.weight)
    (hx : ∃ f ∈ fss, f.included = true) : 0 < includedWeight fss := by
  obtain ⟨f, hf, hinc⟩ := hx
  have hfin : f ∈ includedFields fss := by
    rw [includedFields, List.mem_filter]
    exact ⟨hf, hinc⟩
  refine List.sum_pos _ ?_ ?_
  · intro w hw
    rw [List.mem_map] at hw
    obtain ⟨x, hx1, rfl⟩ := hw
    have hx2 : x ∈ fss := (List.mem_filter.mp hx1).1
    exact (hb x hx2).2.2
  · intro hcon
    rw [List.map_eq_nil_iff] at hcon
    rw [hcon] at hfin
    exact (List.not_mem_nil f) hfin

lemma weightedSum_nonneg (fss : List FieldScore)
    (hb : ∀ f ∈ fss, 0 ≤ f.score ∧ f.score ≤ 1 ∧ 0 < f.weight) :
    0 ≤ weightedSum fss := by
  refine List.sum_nonneg ?_
  intro w hw
  rw [List.mem_map] at hw
  obtain ⟨x, hx1, rfl⟩ := hw
  have hx2 : x ∈ fss := (List.mem_filter.mp hx1).1
  exact mul_nonneg (le_of_lt (hb x hx2).2.2) (hb x hx2).1

lemma weightedSum_le_includedWeight (fss : List FieldScore)
    (hb : ∀ f ∈ fss, 0 ≤ f.score ∧ f.score ≤ 1 ∧ 0 < f.weight) :
    weightedSum fss ≤ includedWeight fss := by
  refine List.sum_le_sum ?_
  intro x hx1
  have hx2 : x ∈ fss := (List.mem_filter.mp hx1).1
  calc x.weight * x.score ≤ x.weight * 1 :=
        mul_le_mul_of_nonneg_left (hb x hx2).2.1 (le_of_lt (hb x hx2).2.2)
    _ = x.weight := mul_one _

/-- Claim C4: when at least one field is included, the sample aggregate is
the weighted mean `Σ(weight·score)/Σ(weight)` over included fields and lies
in [0, 1]; when no field is included the aggregate is reported as absent
rather than 0. -/
theorem C4_weighted_aggregate (specs : List FieldSpec)
    (g p : String → Option String) (hw : ∀ sp ∈ specs, 0 < sp.weight) :
    ((∃ f ∈ (score_sample specs g p).2, f.included = true) →
      0 < includedWeight (score_sample specs g p).2 ∧
      (score_sample specs g p).1 =
        some (weightedSum (score_sample specs g p).2 /
          includedWeight (score_sample specs g p).2) ∧
      0 ≤ weightedSum (score_sample specs g p).2 /
        includedWeight (score_sample specs g p).2 ∧
      weightedSum (score_sample specs g p).2 /
        includedWeight (score_sample specs g p).2 ≤ 1) ∧
    ((∀ f ∈ (score_sample specs g p).2, f.included = false) →
      (score_sample specs g p).1 = none) := by
  have hb := score_sample_mem_bounds specs g p hw
  constructor
  · intro hx
    have hpos := includedWeight_pos _ hb hx
    refine ⟨hpos, ?_, ?_, ?_⟩
    · show aggregateScore ((score_sample specs g p).2) = _
      rw [aggregateScore, if_neg (ne_of_gt hpos)]
    · exact div_nonneg (weightedSum_nonneg _ hb) (le_of_lt hpos)
    · rw [div_le_one hpos]
      exact weightedSum_le_includedWeight _ hb
  · intro hall
    have hnil : includedFields (score_sample specs g p).2 = [] := by
      rw [includedFields, List.filter_eq_nil_iff]
      intro f hf
      simp [hall f hf]
    have hz : includedWeight (score_sample specs g p).2 = 0 := by
      rw [includedWeight, hnil]
      rfl
    show aggregateScore ((score_sample specs g p).2) = none
    rw [aggregateScore, if_pos hz]

/-- Witness for C4 on a one-field sample with matching significance. -/
theorem C4_weighted_aggregate_witness :
    (score_sample [⟨"significance", Strategy.exact, 6/5⟩]
      (fun _ => some "yes") (fun _ => some "yes")).1 =
      some (weightedSum (score_sample [⟨"significance", Strategy.exact, 6/5⟩]
          (fun _ => some "yes") (fun _ => some "yes")).2 /
        includedWeight (score_sample [⟨"significance", Strategy.exact, 6/5⟩]
          (fun _ => some "yes") (fun _ => some "yes")).2) := by
  have hw : ∀ sp ∈ [(⟨"significance", Strategy.exact, 6/5⟩ : FieldSpec)],
      0 < sp.weight := by
    intro sp hsp
    rw [List.mem_singleton] at hsp
    rw [hsp]
    norm_num
  have hx : ∃ f ∈ (score_sample [(⟨"significance", Strategy.exact, 6/5⟩ : FieldSpec)]
      (fun _ => some "yes") (fun _ => some "yes")).2, f.included = true := by
    refine ⟨fieldScore ⟨"significance", Strategy.exact, 6/5⟩ (some "yes")
      (some "yes") (some "yes") (some "yes"), ?_, ?_⟩
    · rw [score_sample_fields]
      exact List.mem_singleton.mpr rfl
    · decide
  exact ((C4_weighted_aggregate _ _ _ hw).1 hx).2.1

/-! ## Order independence of the corpus reduction -/

lemma batchAcc_append (fields : List String) (l1 l2 : List SampleScore) :
    batchAcc fields (l1 ++ l2) =
      mergeAcc (batchAcc fields l1) (batchAcc fields l2) := by
  induction fields with
  | nil => rfl
  | cons f fs ih =>
    simp only [batchAcc, List.map_cons, mergeAcc, List.zipWith_cons_cons,
      List.map_append, List.sum_append] at ih ⊢
    rw [ih]

lemma batchAcc_perm (fields : List String) {l l' : List SampleScore}
    (h : l.Perm l') : batchAcc fields l = batchAcc fields l' := by
  induction fields with
  | nil => rfl
  | cons f fs ih =>
    simp only [batchAcc, List.map_cons]
    rw [List.Perm.sum_eq (h.map (fieldContrib f))]
    exact congrArg (List.cons _) ih

lemma mergeAll_batchAcc (fields : List String)
    (parts : List (List SampleScore)) :
    mergeAll fields (parts.map (batchAcc fields)) =
      batchAcc fields parts.flatten := by
  induction parts with
  | nil => rfl
  | cons q rest ih =>
    simp only [List.map_cons, mergeAll, List.foldr_cons, List.flatten_cons]
    rw [batchAcc_append]
    exact congrArg (mergeAcc _) ih

/-- Claim C9: order-independent corpus reduction — for every partition of a
batch of SampleScores into sublists taken in any order, merging the
partial accumulators yields the same accumulator, and hence the same
CorpusReport with the same per-field means, as aggregating the whole batch
at once. -/
theorem C9_order_independent_reduction (fields : List String)
    (all : List SampleScore) (parts : List (List SampleScore))
    (h : parts.flatten.Perm all) :
    mergeAll fields (parts.map (batchAcc fields)) = batchAcc fields all ∧
    corpusReport fields (mergeAll fields (parts.map (batchAcc fields))) =
      aggregateCorpus fields all := by
  have h1 : mergeAll fields (parts.map (batchAcc fields)) =
      batchAcc fields all :=
    (mergeAll_batchAcc fields parts).trans (batchAcc_perm fields h)
  exact ⟨h1, by rw [h1]; rfl⟩

/-- Witness for C9: two singleton worker batches merged in swapped order. -/
theorem C9_order_independent_reduction_witness :
    corpusReport ["gene"]
      (mergeAll ["gene"]
        ([[(⟨"b", none, [⟨"gene", 0, 1, true⟩]⟩ : SampleScore)],
          [(⟨"a", some 1, [⟨"gene", 1, 1, true⟩]⟩ : SampleScore)]].map
          (batchAcc ["gene"]))) =
      aggregateCorpus ["gene"]
        [⟨"a", some 1, [⟨"gene", 1, 1, true⟩]⟩,
         ⟨"b", none, [⟨"gene", 0, 1, true⟩]⟩] :=
  (C9_order_independent_reduction ["gene"]
    [⟨"a", some 1, [⟨"gene", 1, 1, true⟩]⟩,
     ⟨"b", none, [⟨"gene", 0, 1, true⟩]⟩]
    [[⟨"b", none, [⟨"gene", 0, 1, true⟩]⟩],
     [⟨"a", some 1, [⟨"gene", 1, 1, true⟩]⟩]]
    (List.Perm.swap _ _ _)).2

/-! ## Error isolation -/

/-- Claim C7: the parser is total — it returns the empty token set on
unparseable input (empty string, pure punctuation) and drops individually
malformed tokens instead of aborting the field; and the per-field exception
guard of SampleScorer turns a raising field into `included = false` with an
error note while every other field keeps its own result, so scoring always
covers all fields. -/
theorem C7_error_isolation :
    (∀ g, normalize "" g = ∅) ∧
    (∀ g, normalize ".;:!?" g = ∅) ∧
    normalize "rs123, %%%" none = {"RS123"} ∧
    (∀ (sp : FieldSpec) (e : String),
      guardField sp (Except.error e) = ⟨sp.name, 0, sp.weight, false, some e⟩) ∧
    (∀ (sp : FieldSpec) (f : FieldScore),
      guardField sp (Except.ok f) =
        ⟨f.name, f.score, f.weight, f.included, none⟩) ∧
    (∀ results : List (FieldSpec × Except String FieldScore),
      (score_sample_guarded results).length = results.length) ∧
    (∀ (results : List (FieldSpec × Except String FieldScore)) (i : ℕ)
      (hi : i < results.length),
      (score_sample_guarded results).get
          ⟨i, by simpa [score_sample_guarded] using hi⟩ =
        guardField (results.get ⟨i, hi⟩).1 (results.get ⟨i, hi⟩).2) := by
  refine ⟨fun g => rfl, fun g => rfl, by decide, fun sp e => rfl,
    fun sp f => rfl, fun results => by simp [score_sample_guarded],
    fun results i hi => ?_⟩
  simp [score_sample_guarded]

/-- Witness for C7: a raising alleles field is excluded with its note, and
the guarded scorer still returns one outcome per field. -/
theorem C7_error_isolation_witness :
    (score_sample_guarded [(⟨"alleles", Strategy.fuzzySet, 4/5⟩,
      Except.error "Invalid star allele format: (DPYD*2A)")]).length = 1 ∧
    guardField ⟨"alleles", Strategy.fuzzySet, 4/5⟩
        (Except.error "Invalid star allele format: (DPYD*2A)") =
      ⟨"alleles", 0, 4/5, false,
        some "Invalid star allele format: (DPYD*2A)"⟩ :=
  ⟨C7_error_isolation.2.2.2.2.2.1 _, C7_error_isolation.2.2.2.1 _ _⟩

end AutoGKB
